import Mathlib

/-!
Shallow embedding of the daisy 2D draw-command batching library
(`src/daisy.hh`) for checking its natural-language specification.

Modelling conventions:
* `float` arithmetic is embedded as exact rational arithmetic (`ℚ`);
  `floorf` becomes `Int.floor`.
* Machine integers (`uint32_t`, `uint16_t`) are embedded as `Nat`; the
  `static_cast<uint16_t>` truncations applied to index values are kept
  explicitly as `% 65536`.
* The mutable `unordered_map` members are embedded as association lists
  (`List (ℕ × _)`), with the most recent insertion in front, so that
  lookup sees the latest value, matching `operator[]`-overwrite
  semantics.
* The D3D9 texture surface written through `LockRect` is embedded as an
  append-only log of the byte writes performed on it; a failed append
  that wrote some pixels before bailing out leaves its writes in the
  log, exactly as the real surface keeps them.
* Nullable `IDirect3DTexture9 *` handles are `Option ℕ` (`none` is
  `nullptr`); concrete non-null handles are opaque naturals.
-/

namespace Daisy

/-- Normalised UV rectangle `uv_t = std::array<float,4>`; fields are the
array slots `[0] = u0, [1] = v0, [2] = u1, [3] = v1`. -/
structure UVr where
  u0 : ℚ
  v0 : ℚ
  u1 : ℚ
  v1 : ℚ
deriving DecidableEq, Repr

/-- The all-zero sentinel `null_uv { 0.f, 0.f, 0.f, 0.f }`. -/
def zeroUV : UVr := ⟨0, 0, 0, 0⟩

/-- `color_t`: four 8-bit channels stored in b,g,r,a order. -/
structure Color where
  b : ℕ
  g : ℕ
  r : ℕ
  a : ℕ
deriving DecidableEq, Repr

/-- The packed `bgra` view of a `color_t` (the `uint32_t` member of the
union), used as the vertex colour. -/
def Color.bgra (c : Color) : ℕ :=
  c.b + 2 ^ 8 * c.g + 2 ^ 16 * c.r + 2 ^ 24 * c.a

/-- `daisy_vtx_t`: position x,y,z,rhw; packed colour; one UV pair. -/
structure Vtx where
  pos : ℚ × ℚ × ℚ × ℚ
  col : ℕ
  uv : ℚ × ℚ
deriving DecidableEq, Repr

/-- `daisy_drawcall_t`: tagged union over the four `daisy_call_kind`s.
`tri` carries the texture handle and the running primitive / vertex /
index counts, in the member order `m_texture_handle, m_primitives,
m_vertices, m_indices`. -/
inductive DrawCall where
  | tri (texture : Option ℕ) (primitives vertices indices : ℕ)
  | vtxshader (shader : ℕ)
  | pixshader (shader : ℕ)
  | scissor (position size : ℚ × ℚ)
deriving DecidableEq, Repr

/-- `renderbuffer_t`: owned storage plus a capacity, in elements.  The
source additionally tracks `m_size`; since the bytes past `m_size` are
never-read garbage, the model stores exactly the `m_size` used elements
in `data` (`m_size = data.length`). -/
structure RenderBuffer (α : Type) where
  data : List α
  capacity : ℕ
deriving DecidableEq, Repr

/-- Element count in use (`m_size`). -/
def RenderBuffer.size (b : RenderBuffer α) : ℕ := b.data.length

/-- The capacity-doubling loop of `c_renderqueue::ensure_buffers_capacity`
(`while (size + add > capacity) capacity = capacity * 2;` with
`need = size + add`).  The source loop never terminates when the
capacity is `0` (doubling `0` stays `0`); the `0 < cap` guard makes that
divergent case return `0` here, and every theorem about growth assumes a
positive capacity. -/
def growCapacity (need cap : ℕ) : ℕ :=
  if h : cap < need ∧ 0 < cap then growCapacity need (cap * 2) else cap
termination_by need - cap
decreasing_by omega

/-- One of the two identical blocks of
`c_renderqueue::ensure_buffers_capacity`: if the pending append does not
fit, double the capacity until it does, allocate fresh storage, copy the
used elements over, and raise the owner's GPU-realloc flag; otherwise
leave buffer and flag untouched. -/
def ensureBufferCapacity (b : RenderBuffer α) (reallocFlag : Bool) (add : ℕ) :
    RenderBuffer α × Bool :=
  if b.capacity < b.data.length + add then
    ({ data := b.data, capacity := growCapacity (b.data.length + add) b.capacity }, true)
  else
    (b, reallocFlag)

/-- `c_renderqueue`: host-side vertex/index staging buffers, the ordered
draw-call list, the needs-upload flag and the two needs-GPU-realloc
flags.  The D3D9-side buffer handles are external resources and carry no
modelled state of their own. -/
structure RenderQueue where
  vtxs : RenderBuffer Vtx
  idxs : RenderBuffer ℕ
  drawcalls : List DrawCall
  update : Bool
  reallocVtx : Bool
  reallocIdx : Bool
deriving DecidableEq, Repr

/-- `c_renderqueue::create`: fresh empty local buffers at the given
capacities; member initialisers set `m_update = true` and both realloc
flags `false`. -/
def queueCreate (maxVerts maxIndices : ℕ) : RenderQueue :=
  { vtxs := ⟨[], maxVerts⟩
    idxs := ⟨[], maxIndices⟩
    drawcalls := []
    update := true
    reallocVtx := false
    reallocIdx := false }

/-- `c_renderqueue::ensure_buffers_capacity`: runs the growth block on
the vertex buffer and then on the index buffer. -/
def ensureBuffersCapacity (q : RenderQueue) (verticesToAdd indicesToAdd : ℕ) :
    RenderQueue :=
  let rv := ensureBufferCapacity q.vtxs q.reallocVtx verticesToAdd
  let ri := ensureBufferCapacity q.idxs q.reallocIdx indicesToAdd
  { q with vtxs := rv.1, reallocVtx := rv.2, idxs := ri.1, reallocIdx := ri.2 }

/-- `c_renderqueue::begin_batch`: if the last draw call is a `CALL_TRI`
with the same texture handle, return its accumulated vertex count (the
index offset new geometry must use), else `0`. -/
def beginBatch (q : RenderQueue) (textureHandle : Option ℕ) : ℕ :=
  match q.drawcalls.getLast? with
  | some (DrawCall.tri t _ v _) => if t = textureHandle then v else 0
  | _ => 0

/-- `c_renderqueue::end_batch`: `additional = 0` appends a fresh
`CALL_TRI` call; otherwise the counts are added onto the last call.
In the source the nonzero case dereferences `m_drawcalls.back()`
unconditionally; every call site passes the result of `begin_batch`, so
the last call is then a `CALL_TRI` — the unreachable fallback leaves the
list unchanged.  Both branches set `m_update`. -/
def endBatch (q : RenderQueue) (additionalIndices vertices indices primitives : ℕ)
    (textureHandle : Option ℕ) : RenderQueue :=
  if additionalIndices = 0 then
    { q with
      drawcalls := q.drawcalls ++ [DrawCall.tri textureHandle primitives vertices indices]
      update := true }
  else
    match q.drawcalls.getLast? with
    | some (DrawCall.tri t p v i) =>
        { q with
          drawcalls := q.drawcalls.dropLast
            ++ [DrawCall.tri t (p + primitives) (v + vertices) (i + indices)]
          update := true }
    | _ => { q with update := true }

/-- `floorf` on the rational embedding of `float`. -/
def flq (x : ℚ) : ℚ := (⌊x⌋ : ℤ)

/-- `c_renderqueue::push_scissor`: appends a `CALL_SCISSOR` call; it
performs no batching and does not touch `m_update`. -/
def pushScissor (q : RenderQueue) (position size : ℚ × ℚ) : RenderQueue :=
  { q with drawcalls := q.drawcalls ++ [DrawCall.scissor position size] }

/-- `c_renderqueue::push_gradient_rectangle`: grows the buffers for
4 vertices / 6 indices, tries to batch onto the previous call, appends
the four floored corner vertices (c1 top-left, c2 top-right, c4
bottom-right, c3 bottom-left) and the six `uint16_t` indices offset by
`additional_indices`, and closes the batch with counts 4/6/2. -/
def pushGradientRectangle (q : RenderQueue) (position size : ℚ × ℚ)
    (c1 c2 c3 c4 : Color) (textureHandle : Option ℕ)
    (uvMins uvMaxs : ℚ × ℚ) : RenderQueue :=
  let q := ensureBuffersCapacity q 4 6
  let additionalIndices := beginBatch q textureHandle
  let vtx : List Vtx :=
    [ ⟨(flq position.1, flq position.2, 0, 1), c1.bgra, (uvMins.1, uvMins.2)⟩,
      ⟨(flq (position.1 + size.1), flq position.2, 0, 1), c2.bgra, (uvMaxs.1, uvMins.2)⟩,
      ⟨(flq (position.1 + size.1), flq (position.2 + size.2), 0, 1), c4.bgra, (uvMaxs.1, uvMaxs.2)⟩,
      ⟨(flq position.1, flq (position.2 + size.2), 0, 1), c3.bgra, (uvMins.1, uvMaxs.2)⟩ ]
  let idxs : List ℕ :=
    [ additionalIndices % 65536, (additionalIndices + 1) % 65536,
      (additionalIndices + 3) % 65536, (additionalIndices + 3) % 65536,
      (additionalIndices + 2) % 65536, (additionalIndices + 1) % 65536 ]
  let q := { q with
    vtxs := { q.vtxs with data := q.vtxs.data ++ vtx }
    idxs := { q.idxs with data := q.idxs.data ++ idxs } }
  endBatch q additionalIndices 4 6 2 textureHandle

/-- `c_renderqueue::push_filled_rectangle`: delegates to
`push_gradient_rectangle` with the single colour in all four corners. -/
def pushFilledRectangle (q : RenderQueue) (position size : ℚ × ℚ) (col : Color)
    (textureHandle : Option ℕ) (uvMins uvMaxs : ℚ × ℚ) : RenderQueue :=
  pushGradientRectangle q position size col col col col textureHandle uvMins uvMaxs

/-- The list of device operations `c_renderqueue::flush` issues: nothing
when the draw-call list is empty (early return), otherwise every
accumulated call in append order. -/
def queueFlushCalls (q : RenderQueue) : List DrawCall :=
  if q.drawcalls.isEmpty then [] else q.drawcalls

/-- `c_doublebuffer_queue`: two render queues and the atomic toggle
`m_swap_drawlists`.  The member has no initialiser in the source; the
reference usage keeps the object in zeroed storage, so a fresh instance
starts with the toggle `false`. -/
structure DoubleBufferQueue where
  frontQueue : RenderQueue
  backQueue : RenderQueue
  swapDrawlists : Bool
deriving DecidableEq, Repr

/-- `c_doublebuffer_queue::create`: initialises both slots identically. -/
def dbqCreate (maxVerts maxIndices : ℕ) : DoubleBufferQueue :=
  { frontQueue := queueCreate maxVerts maxIndices
    backQueue := queueCreate maxVerts maxIndices
    swapDrawlists := false }

/-- `c_doublebuffer_queue::queue`: the current write-target slot —
front when the toggle is unset, back otherwise. -/
def dbqQueue (d : DoubleBufferQueue) : RenderQueue :=
  if !d.swapDrawlists then d.frontQueue else d.backQueue

/-- A caller mutating through the reference returned by `queue()`:
applies `f` to the current write-target slot. -/
def dbqWrite (d : DoubleBufferQueue) (f : RenderQueue → RenderQueue) :
    DoubleBufferQueue :=
  if !d.swapDrawlists then { d with frontQueue := f d.frontQueue }
  else { d with backQueue := f d.backQueue }

/-- `c_doublebuffer_queue::swap`: flips the toggle. -/
def dbqSwap (d : DoubleBufferQueue) : DoubleBufferQueue :=
  { d with swapDrawlists := !d.swapDrawlists }

/-- `c_doublebuffer_queue::flush`: flushes the front slot when the
toggle is set, the back slot otherwise — i.e. always the slot that is
currently *not* the write target.  The result is the list of device
operations issued. -/
def dbqFlushCalls (d : DoubleBufferQueue) : List DrawCall :=
  if d.swapDrawlists then queueFlushCalls d.frontQueue
  else queueFlushCalls d.backQueue

/-! ### Texture atlas (`c_texatlas`) -/

/-- Association-list lookup used to model `unordered_map::find`. -/
def alookup (m : List (ℕ × UVr)) (k : ℕ) : Option UVr :=
  match m with
  | [] => none
  | (k', v) :: rest => if k = k' then some v else alookup rest k

/-- A single byte-write event on a locked texture surface: destination
pixel `(x, y)` and the four bytes stored at `destination_pixel[0..3]`. -/
structure PixWrite where
  dst : ℕ × ℕ
  bytes : ℕ × ℕ × ℕ × ℕ
deriving DecidableEq, Repr

/-- `c_texatlas`: packed-UV map, shelf cursor, fixed dimensions, current
row max height, plus the write log of the backing texture surface. -/
structure TexAtlas where
  coords : List (ℕ × UVr)
  cursor : ℚ × ℚ
  dimensions : ℚ × ℚ
  maxHeight : ℚ
  texture : List PixWrite
deriving DecidableEq, Repr

/-- `c_texatlas::create`: resets the cursor and row height and allocates
a fresh (empty) backing texture at `dimensions`. -/
def texCreate (dimensions : ℚ × ℚ) : TexAtlas :=
  { coords := [], cursor := (0, 0), dimensions := dimensions, maxHeight := 0
    texture := [] }

/-- `(uint32_t)` / `(int)` truncation of a non-negative float value. -/
def natFloor (x : ℚ) : ℕ := (⌊x⌋ : ℤ).toNat

/-- Number of iterations of `for (int i = 0; i < bound; ++i)` with a
float `bound`. -/
def iterCount (bound : ℚ) : ℕ := (⌈bound⌉ : ℤ).toNat

/-- Row-major pixel coordinates `(y, x)` visited by the nested copy loop
of `c_texatlas::append`. -/
def pixelList (rows cols : ℕ) : List (ℕ × ℕ) :=
  (List.range rows).flatMap fun y => (List.range cols).map fun x => (y, x)

/-- The nested pixel-copy loop of `c_texatlas::append`.  For each pixel
the source byte offset is `dims.x * 4 * y + x * 4`; if it exceeds
`tex_size` the whole call returns `false` on the spot (keeping the
writes already made), otherwise the four source bytes are stored at the
destination with the 0/2 channels swapped. -/
def copyPixels (w texSize : ℕ) (texData : ℕ → ℕ) (dx dy : ℕ) :
    List (ℕ × ℕ) → List PixWrite → List PixWrite × Bool
  | [], acc => (acc, true)
  | (y, x) :: rest, acc =>
      let off := w * 4 * y + x * 4
      if texSize < off then (acc, false)
      else
        copyPixels w texSize texData dx dy rest
          (acc ++ [⟨(dx + x, dy + y),
                    (texData (off + 2), texData (off + 1), texData off,
                     texData (off + 3))⟩])

/-- The row-wrap step at the top of `c_texatlas::append`: if the
rectangle does not fit horizontally, drop the cursor by the current row
max height and reset column and row height. -/
def texWrapStep (a : TexAtlas) (dims : ℚ × ℚ) : TexAtlas :=
  if a.dimensions.1 < a.cursor.1 + dims.1 then
    { a with cursor := (0, a.cursor.2 + a.maxHeight), maxHeight := 0 }
  else a

/-- The row-height update of `c_texatlas::append`:
`if (m_max_height < dims.y) m_max_height = dims.y`. -/
def texRowStep (a : TexAtlas) (dims : ℚ × ℚ) : TexAtlas :=
  if a.maxHeight < dims.2 then { a with maxHeight := dims.2 } else a

/-- The UVRect recorded by a successful `c_texatlas::append`, computed
from the (post-wrap) cursor and the atlas dimensions. -/
def texAppendUV (a : TexAtlas) (dims : ℚ × ℚ) : UVr :=
  { u0 := a.cursor.1 / a.dimensions.1
    v0 := a.cursor.2 / a.dimensions.2
    u1 := a.cursor.1 / a.dimensions.1 + dims.1 / a.dimensions.1
    v1 := a.cursor.2 / a.dimensions.2 + dims.2 / a.dimensions.2 }

/-- `c_texatlas::append`.  Returns the new atlas state and the success
flag.  The `!tex_data || !tex_size` guard is modelled by the
`tex_size = 0` test (the data pointer itself is modelled as the total
byte function `texData`).  Note the source checks the vertical overflow
*after* mutating the cursor in the wrap step, bails out of the copy loop
mid-way without recording a UVRect or advancing the cursor, and on
success prepends the (possibly overwriting) map entry. -/
def texAppend (a : TexAtlas) (uuid : ℕ) (dims : ℚ × ℚ) (texData : ℕ → ℕ)
    (texSize : ℕ) : TexAtlas × Bool :=
  if texSize = 0 then (a, false)
  else
    let a1 := texWrapStep a dims
    if a1.dimensions.2 < a1.cursor.2 + dims.2 then (a1, false)
    else
      let a2 := texRowStep a1 dims
      let res := copyPixels (natFloor dims.1) texSize texData
        (natFloor a2.cursor.1) (natFloor a2.cursor.2)
        (pixelList (iterCount dims.2) (iterCount dims.1)) []
      if res.2 then
        ({ a2 with
            texture := a2.texture ++ res.1
            coords := (uuid, texAppendUV a2 dims) :: a2.coords
            cursor := (a2.cursor.1 + dims.1, a2.cursor.2) }, true)
      else ({ a2 with texture := a2.texture ++ res.1 }, false)

/-- `c_texatlas::coords`: the stored UVRect, or the all-zero sentinel
when the key was never recorded; a total function (never raises). -/
def texCoords (a : TexAtlas) (uuid : ℕ) : UVr :=
  (alookup a.coords uuid).getD zeroUV

/-! ### Font wrapper (`c_fontwrapper`)

Code points (`wchar_t`) are naturals; text is a list of code points. -/

/-- The glyph-UV map `m_coords` of a font, the integer font metrics
`m_width`, `m_height`, `m_spacing`, and the shrink factor `m_scale`. -/
structure FontW where
  coords : List (ℕ × UVr)
  width : ℕ
  height : ℕ
  spacing : ℕ
  scale : ℚ
deriving DecidableEq, Repr

/-- `c_fontwrapper::coords`: `find`-based read-only lookup with the
all-zero sentinel on a miss; a total function (never raises). -/
def fontCoords (f : FontW) (glyph : ℕ) : UVr :=
  (alookup f.coords glyph).getD zeroUV

/-- `unordered_map::operator[]` on `m_coords`: returns the stored value,
default-inserting a value-initialised (all-zero) `uv_t` for a missing
key.  Returns the value read together with the possibly-grown map. -/
def mapGet (m : List (ℕ × UVr)) (c : ℕ) : UVr × List (ℕ × UVr) :=
  match alookup m c with
  | some v => (v, m)
  | none => (zeroUV, (c, zeroUV) :: m)

/-- The character loop of `c_fontwrapper::text_extent`: `'\n'` resets
the row width and adds a row height; other control characters below the
space are skipped; every other character is read through `operator[]`
(inserting an all-zero entry on a miss) and advances the row width by
`(tx2 - tx1) * m_width - 2 * m_spacing`, tracking the maximum row
width. -/
def textExtentGo (f : FontW) (rowHeight : ℚ) :
    List ℕ → ℚ → ℚ → ℚ → List (ℕ × UVr) → (ℚ × ℚ) × List (ℕ × UVr)
  | [], _, w, h, m => ((w, h), m)
  | c :: rest, rw, w, h, m =>
      if c = 10 then textExtentGo f rowHeight rest 0 w (h + rowHeight) m
      else if c < 32 then textExtentGo f rowHeight rest rw w h m
      else
        let g := mapGet m c
        let rw' := rw + (g.1.u1 - g.1.u0) * (f.width : ℚ) - 2 * (f.spacing : ℚ)
        let w' := if w < rw' then rw' else w
        textExtentGo f rowHeight rest rw' w' h g.2

/-- `c_fontwrapper::text_extent`: derives the row height from the space
character's entry — read through `operator[]`, which inserts an all-zero
entry when the space was never painted — then folds over the text.
Returns `(width, height)` and the (possibly grown) `m_coords` map. -/
def textExtent (f : FontW) (text : List ℕ) : (ℚ × ℚ) × List (ℕ × UVr) :=
  let g32 := mapGet f.coords 32
  let rowHeight := (g32.1.v1 - g32.1.v0) * (f.height : ℚ)
  textExtentGo f rowHeight text 0 0 rowHeight g32.2

/-- The per-glyph advance applied to `corrected_position.x` by
`c_renderqueue::push_text`: `w - 2 * spacing` with
`w = (tx2 - tx1) * font.width() / font.scale()`. -/
def pushTextAdvance (f : FontW) (c : ℕ) : ℚ :=
  ((fontCoords f c).u1 - (fontCoords f c).u0) * (f.width : ℚ) / f.scale
    - 2 * (f.spacing : ℚ)

/-- The evolution of `corrected_position.x` through the character loop
of `c_renderqueue::push_text` (a newline resets the position to
`start_x`, control characters are skipped, every other character —
spaces included — advances by `pushTextAdvance`). -/
def pushTextX (f : FontW) (startX : ℚ) : List ℕ → ℚ → ℚ
  | [], x => x
  | c :: rest, x =>
      if c = 10 then pushTextX f startX rest startX
      else if c < 32 then pushTextX f startX rest x
      else pushTextX f startX rest (x + pushTextAdvance f c)

/-- The advance of `text_extent`'s own row accumulation for one
character: `(tx2 - tx1) * m_width - 2 * m_spacing` (no division by the
scale). -/
def extentAdvance (f : FontW) (c : ℕ) : ℚ :=
  ((fontCoords f c).u1 - (fontCoords f c).u0) * (f.width : ℚ)
    - 2 * (f.spacing : ℚ)

/-- Sum of `text_extent` advances over a line (control characters
contribute nothing). -/
def extentSum (f : FontW) : List ℕ → ℚ
  | [] => 0
  | c :: rest => (if c < 32 then 0 else extentAdvance f c) + extentSum f rest

/-! ### Glyph-atlas fitting (`c_fontwrapper::create_ex` /
`paint_or_measure_alphabet`) -/

/-- The measuring pass of `c_fontwrapper::paint_or_measure_alphabet`
over the font's glyph extents `(cx, cy)`: left-to-right shelf placement
starting at `x = spacing, y = 0`; a glyph that does not fit horizontally
wraps (`x = spacing; y += cy + 1`); a glyph that then does not fit
vertically makes the pass report that the atlas is too small (the
source's return value `2`, here `false`); after placing, `x` advances by
`cx + 2 * spacing`.  `true` means every glyph fits. -/
def measureGlyphs (spacing width height : ℕ) :
    List (ℕ × ℕ) → ℕ → ℕ → Bool
  | [], _, _ => true
  | (cx, cy) :: rest, x, y =>
      let x' := if width < x + cx + spacing then spacing else x
      let y' := if width < x + cx + spacing then y + cy + 1 else y
      if height < y' + cy then false
      else measureGlyphs spacing width height rest (x' + cx + 2 * spacing) y'

/-- Whether the dry-run fitting pass succeeds on a square atlas of the
given side length. -/
def measureFits (glyphs : List (ℕ × ℕ)) (spacing side : ℕ) : Bool :=
  measureGlyphs spacing side side glyphs spacing 0

/-- The scale sequence tried by the shrink loop of
`c_fontwrapper::create_ex`: the initial ceiling-imposed scale, then
`scale *= 0.9f` once per further iteration. -/
def shrinkScale (s0 : ℚ) (n : ℕ) : ℚ := s0 * (9 / 10) ^ n

/-- Termination of the scale-shrink `do/while` loop of
`c_fontwrapper::create_ex`: iteration `n` re-measures the alphabet —
with the glyph extents the rasterizer reports at `shrinkScale s0 n`,
abstracted as `sizesAt n` — against the ceiling-clamped square atlas,
and the loop stops exactly when some iteration fits.  For a font whose
reported glyph measurements do not depend on the scale, `sizesAt` is a
constant function. -/
def shrinkLoopTerminates (sizesAt : ℕ → List (ℕ × ℕ)) (spacing side : ℕ) :
    Prop :=
  ∃ n, measureFits (sizesAt n) spacing side = true

/-! ### Concrete instances used to evaluate the definitions -/

/-- A sample stored UVRect. -/
def uvSample : UVr := ⟨0, 0, 1 / 4, 1 / 4⟩

/-- A concrete pixel-data byte source (every byte reads as 9). -/
def sampleBytes : ℕ → ℕ := fun _ => 9

/-- A 4×4 atlas holding one packed entry under key 5, cursor at the
start of the second row's remainder. -/
def atlasSample : TexAtlas :=
  { coords := [(5, uvSample)], cursor := (1, 0), dimensions := (4, 4)
    maxHeight := 1, texture := [] }

/-- A 4×4 atlas whose cursor sits low enough that a 2-pixel-tall append
overflows vertically. -/
def atlasLow : TexAtlas :=
  { coords := [(5, uvSample)], cursor := (0, 3), dimensions := (4, 4)
    maxHeight := 1, texture := [] }

/-- A font whose atlas had to be shrunk (`scale = 1/2`), with entries
for the space and for the glyph 66. -/
def fontScaled : FontW :=
  { coords := [(32, ⟨0, 0, 0, 1 / 8⟩), (66, ⟨0, 0, 1 / 2, 1 / 4⟩)]
    width := 128, height := 128, spacing := 0, scale := 1 / 2 }

/-- A font at scale 1 with entries for the space and for the glyph 66. -/
def fontUnit : FontW :=
  { coords := [(32, ⟨0, 0, 1 / 8, 1 / 8⟩), (66, ⟨0, 0, 1 / 2, 1 / 4⟩)]
    width := 128, height := 128, spacing := 3, scale := 1 }

/-- A font whose glyph map is still empty. -/
def fontEmpty : FontW :=
  { coords := [], width := 64, height := 64, spacing := 2, scale := 1 }

/-- A synthetic font whose single advertised glyph measures 1×200 at
every scale — fixed glyph measurements in the sense of the spec. -/
def fixedTallGlyph : ℕ → List (ℕ × ℕ) := fun _ => [(1, 200)]

end Daisy

namespace Daisy

/-! ## Theorems -/

/-! ### GrowableBuffer growth (claim C4) -/

/-- The doubling loop result accommodates the request (positive
capacity). -/
theorem le_growCapacity (need cap : ℕ) (h : 0 < cap) :
    need ≤ growCapacity need cap := by
  unfold growCapacity
  split
  · next hlt => exact le_growCapacity need (cap * 2) (by omega)
  · next hlt => omega
termination_by need - cap
decreasing_by omega

/-- The doubling loop only ever doubles: the result is the first
`cap * 2 ^ k` at which the request fits. -/
theorem growCapacity_eq_pow (need cap : ℕ) :
    ∃ k, growCapacity need cap = cap * 2 ^ k ∧ ∀ j < k, cap * 2 ^ j < need := by
  unfold growCapacity
  split
  · next hlt =>
      obtain ⟨k, hk, hmin⟩ := growCapacity_eq_pow need (cap * 2)
      refine ⟨k + 1, by rw [hk]; ring, ?_⟩
      intro j hj
      match j with
      | 0 => simpa using hlt.1
      | j + 1 =>
          have := hmin j (by omega)
          calc cap * 2 ^ (j + 1) = cap * 2 * 2 ^ j := by ring
          _ < need := this
  · next hlt => exact ⟨0, by simp, fun j hj => absurd hj (Nat.not_lt_zero j)⟩
termination_by need - cap
decreasing_by omega

/-- C4: for a growable buffer of positive capacity, `ensure_capacity`
is a complete no-op (buffer, contents and realloc flag untouched) when
the request already fits; otherwise it doubles the capacity just until
the request fits, keeps the used elements and their count, raises the
GPU-realloc flag, and a repeat of the same call is then a no-op. -/
theorem c4_ensure_capacity {α : Type} (b : RenderBuffer α) (flag : Bool)
    (add : ℕ) (hcap : 0 < b.capacity) :
    (b.data.length + add ≤ b.capacity →
      ensureBufferCapacity b flag add = (b, flag)) ∧
    (b.capacity < b.data.length + add →
      (ensureBufferCapacity b flag add).1.data = b.data ∧
      (ensureBufferCapacity b flag add).2 = true ∧
      b.data.length + add ≤ (ensureBufferCapacity b flag add).1.capacity ∧
      (∃ k, (ensureBufferCapacity b flag add).1.capacity = b.capacity * 2 ^ k ∧
        ∀ j < k, b.capacity * 2 ^ j < b.data.length + add) ∧
      ensureBufferCapacity (ensureBufferCapacity b flag add).1
          (ensureBufferCapacity b flag add).2 add
        = ((ensureBufferCapacity b flag add).1,
           (ensureBufferCapacity b flag add).2)) := by
  constructor
  · intro h
    unfold ensureBufferCapacity
    rw [if_neg (by omega)]
  · intro h
    have hgrow : ensureBufferCapacity b flag add
        = ({ data := b.data,
             capacity := growCapacity (b.data.length + add) b.capacity }, true) := by
      unfold ensureBufferCapacity
      rw [if_pos h]
    rw [hgrow]
    refine ⟨rfl, rfl, le_growCapacity _ _ hcap, growCapacity_eq_pow _ _, ?_⟩
    unfold ensureBufferCapacity
    rw [if_neg (by simpa using not_lt.mpr (le_growCapacity (b.data.length + add) b.capacity hcap))]

/-- Witness: a buffer of capacity 2 holding 2 elements grows for a
3-element append, keeping its contents and raising the flag. -/
theorem c4_ensure_capacity_witness :
    (ensureBufferCapacity (RenderBuffer.mk ([1, 2] : List ℕ) 2) false 3).1.data
      = [1, 2] ∧
    (ensureBufferCapacity (RenderBuffer.mk ([1, 2] : List ℕ) 2) false 3).2
      = true := by
  have h := (c4_ensure_capacity (RenderBuffer.mk ([1, 2] : List ℕ) 2) false 3
    (by decide)).2 (by decide)
  exact ⟨h.1, h.2.1⟩

/-! ### Filled rectangles are gradient rectangles (claim C10) -/

/-- C10: `push_filled_rectangle` is observationally identical to
`push_gradient_rectangle` with the same colour in all four corners: the
whole queue state (vertex buffer, index buffer, draw-call list, flags)
agrees. -/
theorem c10_filled_is_gradient (q : RenderQueue) (position size : ℚ × ℚ)
    (col : Color) (tex : Option ℕ) (uvMins uvMaxs : ℚ × ℚ) :
    pushFilledRectangle q position size col tex uvMins uvMaxs
      = pushGradientRectangle q position size col col col col tex uvMins uvMaxs :=
  rfl

/-! ### Double-buffered queue (claim C6) -/

/-- C6: on a fresh double-buffered queue, filling the write slot through
`queue()` and swapping makes `flush()` issue exactly the commands of the
slot written before the swap, while `queue()` now returns the other,
still-pristine (hence command-free) slot. -/
theorem c6_double_buffer (maxVerts maxIndices : ℕ)
    (f : RenderQueue → RenderQueue) :
    dbqFlushCalls (dbqSwap (dbqWrite (dbqCreate maxVerts maxIndices) f))
        = queueFlushCalls (f (queueCreate maxVerts maxIndices)) ∧
    (dbqSwap (dbqWrite (dbqCreate maxVerts maxIndices) f)).frontQueue
        = f (queueCreate maxVerts maxIndices) ∧
    dbqQueue (dbqSwap (dbqWrite (dbqCreate maxVerts maxIndices) f))
        = queueCreate maxVerts maxIndices ∧
    (dbqQueue (dbqSwap (dbqWrite (dbqCreate maxVerts maxIndices) f))).drawcalls
        = [] :=
  ⟨rfl, rfl, rfl, rfl⟩

/-! ### Contiguous batching (claim C1) -/

/-- `end_batch` with batch offset 0 appends a fresh `CALL_TRI` call. -/
theorem endBatch_zero (q : RenderQueue) (v i p : ℕ) (t : Option ℕ) :
    (endBatch q 0 v i p t).drawcalls = q.drawcalls ++ [DrawCall.tri t p v i] := by
  simp [endBatch]

/-- `end_batch` with a nonzero batch offset adds the counts onto the
trailing `CALL_TRI` call. -/
theorem endBatch_merge (q : RenderQueue) (l : List DrawCall) (t0 t : Option ℕ)
    (p0 v0 i0 add v i p : ℕ)
    (hq : q.drawcalls = l ++ [DrawCall.tri t0 p0 v0 i0]) (hadd : add ≠ 0) :
    (endBatch q add v i p t).drawcalls
      = l ++ [DrawCall.tri t0 (p0 + p) (v0 + v) (i0 + i)] := by
  unfold endBatch
  rw [if_neg hadd, hq, List.getLast?_concat]
  simp [hq, List.dropLast_concat]

/-- Pushing a gradient rectangle that cannot batch appends one
`CALL_TRI` call with counts 4/6/2. -/
theorem pushGradient_calls_new (q : RenderQueue) (position size : ℚ × ℚ)
    (c1 c2 c3 c4 : Color) (tex : Option ℕ) (um uM : ℚ × ℚ)
    (h : beginBatch q tex = 0) :
    (pushGradientRectangle q position size c1 c2 c3 c4 tex um uM).drawcalls
      = q.drawcalls ++ [DrawCall.tri tex 2 4 6] := by
  simp only [pushGradientRectangle]
  rw [show beginBatch (ensureBuffersCapacity q 4 6) tex = 0 from h]
  rw [endBatch_zero]
  rfl

/-- Pushing a gradient rectangle right after a same-texture `CALL_TRI`
call of nonzero vertex count merges into it. -/
theorem pushGradient_calls_merge (q : RenderQueue) (position size : ℚ × ℚ)
    (c1 c2 c3 c4 : Color) (tex : Option ℕ) (um uM : ℚ × ℚ)
    (l : List DrawCall) (p0 v0 i0 : ℕ)
    (hq : q.drawcalls = l ++ [DrawCall.tri tex p0 v0 i0]) (hv : v0 ≠ 0) :
    (pushGradientRectangle q position size c1 c2 c3 c4 tex um uM).drawcalls
      = l ++ [DrawCall.tri tex (p0 + 2) (v0 + 4) (i0 + 6)] := by
  have hb : beginBatch q tex = v0 := by
    unfold beginBatch
    rw [hq, List.getLast?_concat]
    simp
  simp only [pushGradientRectangle]
  rw [show beginBatch (ensureBuffersCapacity q 4 6) tex = v0 from hb]
  exact endBatch_merge _ l tex tex p0 v0 i0 v0 4 6 2 hq hv

/-- C1: starting from any queue whose last call does not batch with the
non-null texture `t`, two consecutive filled rectangles on `t` produce
exactly one `TriBatch` call with 8 vertices / 12 indices / 4 primitives,
whereas interposing a scissor push yields two separate `TriBatch` calls
of 4/6/2 each. -/
theorem c1_batching (q : RenderQueue) (t : ℕ)
    (p1 s1 p2 s2 spos ssize : ℚ × ℚ) (col col' : Color)
    (um uM um' uM' : ℚ × ℚ)
    (h : beginBatch q (some t) = 0) :
    (pushFilledRectangle (pushFilledRectangle q p1 s1 col (some t) um uM)
        p2 s2 col' (some t) um' uM').drawcalls
      = q.drawcalls ++ [DrawCall.tri (some t) 4 8 12] ∧
    (pushFilledRectangle (pushScissor
        (pushFilledRectangle q p1 s1 col (some t) um uM) spos ssize)
        p2 s2 col' (some t) um' uM').drawcalls
      = q.drawcalls ++ [DrawCall.tri (some t) 2 4 6,
          DrawCall.scissor spos ssize, DrawCall.tri (some t) 2 4 6] := by
  have h1 : (pushFilledRectangle q p1 s1 col (some t) um uM).drawcalls
      = q.drawcalls ++ [DrawCall.tri (some t) 2 4 6] :=
    pushGradient_calls_new q p1 s1 col col col col (some t) um uM h
  constructor
  · have h2 := pushGradient_calls_merge
      (pushFilledRectangle q p1 s1 col (some t) um uM) p2 s2 col' col' col' col'
      (some t) um' uM' q.drawcalls 2 4 6 h1 (by norm_num)
    simpa using h2
  · have hsc : (pushScissor (pushFilledRectangle q p1 s1 col (some t) um uM)
        spos ssize).drawcalls
      = (q.drawcalls ++ [DrawCall.tri (some t) 2 4 6])
          ++ [DrawCall.scissor spos ssize] := by
      simp [pushScissor, h1]
    have hb0 : beginBatch (pushScissor
        (pushFilledRectangle q p1 s1 col (some t) um uM) spos ssize) (some t) = 0 := by
      unfold beginBatch
      rw [hsc, List.getLast?_concat]
    have h3 := pushGradient_calls_new
      (pushScissor (pushFilledRectangle q p1 s1 col (some t) um uM) spos ssize)
      p2 s2 col' col' col' col' (some t) um' uM' hb0
    simp only [pushFilledRectangle] at h3 hsc ⊢
    rw [h3, hsc]
    simp

/-- Witness: on a freshly created queue, two unit rectangles on texture
handle 1 merge into one 8/12/4 `TriBatch`, and a scissor in between
splits them into two 4/6/2 `TriBatch` calls. -/
theorem c1_batching_witness :
    (pushFilledRectangle (pushFilledRectangle (queueCreate 32767 65535)
        (0, 0) (2, 2) ⟨255, 255, 255, 255⟩ (some 1) (0, 0) (1, 1))
        (2, 0) (2, 2) ⟨0, 0, 255, 255⟩ (some 1) (0, 0) (1, 1)).drawcalls
      = [DrawCall.tri (some 1) 4 8 12] ∧
    (pushFilledRectangle (pushScissor
        (pushFilledRectangle (queueCreate 32767 65535)
          (0, 0) (2, 2) ⟨255, 255, 255, 255⟩ (some 1) (0, 0) (1, 1))
        (0, 0) (8, 8))
        (2, 0) (2, 2) ⟨0, 0, 255, 255⟩ (some 1) (0, 0) (1, 1)).drawcalls
      = [DrawCall.tri (some 1) 2 4 6, DrawCall.scissor (0, 0) (8, 8),
         DrawCall.tri (some 1) 2 4 6] := by
  have h := c1_batching (queueCreate 32767 65535) 1 (0, 0) (2, 2) (2, 0) (2, 2)
    (0, 0) (8, 8) ⟨255, 255, 255, 255⟩ ⟨0, 0, 255, 255⟩
    (0, 0) (1, 1) (0, 0) (1, 1) rfl
  simpa using h

/-! ### Texture-atlas append (claims C2, C3) -/

/-- The wrap step only moves the cursor and row height. -/
theorem texWrapStep_coords (a : TexAtlas) (dims : ℚ × ℚ) :
    (texWrapStep a dims).coords = a.coords := by
  unfold texWrapStep
  split <;> rfl

/-- The wrap step does not write to the texture. -/
theorem texWrapStep_texture (a : TexAtlas) (dims : ℚ × ℚ) :
    (texWrapStep a dims).texture = a.texture := by
  unfold texWrapStep
  split <;> rfl

/-- The row-height update touches neither map nor texture. -/
theorem texRowStep_coords (a : TexAtlas) (dims : ℚ × ℚ) :
    (texRowStep a dims).coords = a.coords := by
  unfold texRowStep
  split <;> rfl

/-- The row-height update does not write to the texture. -/
theorem texRowStep_texture (a : TexAtlas) (dims : ℚ × ℚ) :
    (texRowStep a dims).texture = a.texture := by
  unfold texRowStep
  split <;> rfl

/-- C2: whenever, after the row wrap, the rectangle overflows the atlas
vertically, `append` fails, writes no pixel, and leaves every stored
UVRect unchanged. -/
theorem c2_atlas_exhausted (a : TexAtlas) (uuid : ℕ) (dims : ℚ × ℚ)
    (texData : ℕ → ℕ) (texSize : ℕ)
    (h : (texWrapStep a dims).dimensions.2
        < (texWrapStep a dims).cursor.2 + dims.2) :
    (texAppend a uuid dims texData texSize).2 = false ∧
    (texAppend a uuid dims texData texSize).1.coords = a.coords ∧
    (texAppend a uuid dims texData texSize).1.texture = a.texture := by
  unfold texAppend
  by_cases hz : texSize = 0
  · rw [if_pos hz]
    exact ⟨rfl, rfl, rfl⟩
  · rw [if_neg hz]
    simp only [if_pos h]
    exact ⟨trivial, texWrapStep_coords a dims, texWrapStep_texture a dims⟩

/-- Witness: a 2-tall append at cursor height 3 of a 4×4 atlas fails and
leaves map and texture alone. -/
theorem c2_atlas_exhausted_witness :
    (texAppend atlasLow 9 (1, 2) sampleBytes 8).2 = false ∧
    (texAppend atlasLow 9 (1, 2) sampleBytes 8).1.coords = atlasLow.coords ∧
    (texAppend atlasLow 9 (1, 2) sampleBytes 8).1.texture = atlasLow.texture :=
  c2_atlas_exhausted atlasLow 9 (1, 2) sampleBytes 8
    (by norm_num [texWrapStep, atlasLow])

/-- The copy loop fails as soon as some listed pixel's source offset
exceeds the declared data size. -/
theorem copyPixels_fails (w texSize : ℕ) (texData : ℕ → ℕ) (dx dy : ℕ) :
    ∀ (pix : List (ℕ × ℕ)) (acc : List PixWrite),
      (∃ p ∈ pix, texSize < w * 4 * p.1 + p.2 * 4) →
      (copyPixels w texSize texData dx dy pix acc).2 = false := by
  intro pix
  induction pix with
  | nil => intro acc h; simp at h
  | cons p rest ih =>
      intro acc h
      obtain ⟨y, x⟩ := p
      by_cases hoff : texSize < w * 4 * y + x * 4
      · simp [copyPixels, hoff]
      · simp only [copyPixels, if_neg hoff]
        refine ih _ ?_
        obtain ⟨q, hq, hqo⟩ := h
        rcases List.mem_cons.mp hq with hq | hq
        · subst hq
          exact absurd hqo hoff
        · exact ⟨q, hq, hqo⟩

/-- The copy loop never shrinks the write log. -/
theorem copyPixels_length_le (w texSize : ℕ) (texData : ℕ → ℕ) (dx dy : ℕ) :
    ∀ (pix : List (ℕ × ℕ)) (acc : List PixWrite),
      acc.length ≤ (copyPixels w texSize texData dx dy pix acc).1.length := by
  intro pix
  induction pix with
  | nil => intro acc; simp [copyPixels]
  | cons p rest ih =>
      intro acc
      obtain ⟨y, x⟩ := p
      by_cases hoff : texSize < w * 4 * y + x * 4
      · simp [copyPixels, hoff]
      · simp only [copyPixels, if_neg hoff]
        calc acc.length ≤ acc.length + 1 := Nat.le_succ _
        _ = (acc ++ [_]).length := by simp
        _ ≤ _ := ih _

/-- On a nonempty pixel list starting at the origin the copy loop writes
at least the first pixel before it can fail. -/
theorem copyPixels_writes_first (w texSize : ℕ) (texData : ℕ → ℕ)
    (dx dy : ℕ) (rest : List (ℕ × ℕ)) (acc : List PixWrite) :
    acc.length <
      (copyPixels w texSize texData dx dy ((0, 0) :: rest) acc).1.length := by
  have hoff : ¬ texSize < w * 4 * 0 + 0 * 4 := by omega
  simp only [copyPixels, if_neg hoff]
  calc acc.length < (acc ++ [_]).length := by simp
  _ ≤ _ := copyPixels_length_le w texSize texData dx dy rest _

/-- The iteration count of a float-bounded `for` loop at a whole bound. -/
theorem iterCount_natCast (n : ℕ) : iterCount (n : ℚ) = n := by
  simp [iterCount]

/-- `(uint32_t)` truncation at a whole value. -/
theorem natFloor_natCast (n : ℕ) : natFloor (n : ℚ) = n := by
  simp [natFloor]

/-- The row-major pixel list of a non-degenerate rectangle starts at the
origin pixel. -/
theorem pixelList_cons (rows cols : ℕ) (hr : 0 < rows) (hc : 0 < cols) :
    ∃ l, pixelList rows cols = (0, 0) :: l := by
  obtain ⟨r, rfl⟩ := Nat.exists_eq_succ_of_ne_zero hr.ne'
  obtain ⟨c, rfl⟩ := Nat.exists_eq_succ_of_ne_zero hc.ne'
  refine ⟨((List.range (c + 1)).map fun x => (0, x)).tail ++
    ((List.range r).map (· + 1)).flatMap fun y =>
      (List.range (c + 1)).map fun x => (y, x), ?_⟩
  rw [pixelList, List.range_succ_eq_map, List.flatMap_cons, List.range_succ_eq_map]
  simp [List.flatMap_map]

/-- The last pixel of the rectangle is visited by the copy loop. -/
theorem pixelList_mem_last (rows cols : ℕ) (hr : 0 < rows) (hc : 0 < cols) :
    (rows - 1, cols - 1) ∈ pixelList rows cols := by
  unfold pixelList
  rw [List.mem_flatMap]
  exact ⟨rows - 1, List.mem_range.mpr (by omega),
    List.mem_map.mpr ⟨cols - 1, List.mem_range.mpr (by omega), rfl⟩⟩

/-- C3 is false as stated: on a fresh 4×4 atlas, appending a 1×1
rectangle (which needs 4 bytes) with only 3 declared bytes *succeeds* —
the per-pixel check `offset > tex_size` never fires for data at most 3
bytes short — and appending a 1×2 rectangle (8 bytes needed) with 3
declared bytes fails only after the first pixel has already been
written to the texture. -/
theorem c3_counterexample :
    (texAppend (texCreate (4, 4)) 7 (1, 1) sampleBytes 3).2 = true ∧
    (texAppend (texCreate (4, 4)) 7 (1, 2) sampleBytes 3).2 = false ∧
    (texAppend (texCreate (4, 4)) 7 (1, 2) sampleBytes 3).1.texture
      ≠ (texCreate (4, 4)).texture := by
  refine ⟨?_, ?_, ?_⟩ <;>
    norm_num [texAppend, texCreate, texWrapStep, texRowStep, natFloor, iterCount,
      pixelList, copyPixels, sampleBytes, texAppendUV, List.range_succ,
      List.range_zero]

/-- C3 amended: when the declared data size falls short of the last
pixel's byte offset, `append` does fail without recording a UVRect, but
the length check happens per pixel *during* the copy, so the pixels
before the failing offset — at least the first one — are already written
(a partial copy occurs). -/
theorem c3_short_data_incomplete_copy (a : TexAtlas) (uuid w h texSize : ℕ)
    (texData : ℕ → ℕ) (hw : 0 < w) (hh : 0 < h) (hz : texSize ≠ 0)
    (hshort : texSize < 4 * (w * h - 1))
    (hfit : ¬ ((texWrapStep a ((w : ℚ), (h : ℚ))).dimensions.2
        < (texWrapStep a ((w : ℚ), (h : ℚ))).cursor.2 + (h : ℚ))) :
    (texAppend a uuid ((w : ℚ), (h : ℚ)) texData texSize).2 = false ∧
    (texAppend a uuid ((w : ℚ), (h : ℚ)) texData texSize).1.coords = a.coords ∧
    a.texture.length
      < (texAppend a uuid ((w : ℚ), (h : ℚ)) texData texSize).1.texture.length := by
  have hfail : ∀ dx dy,
      (copyPixels (natFloor ((w : ℚ), (h : ℚ)).1) texSize texData dx dy
        (pixelList (iterCount ((w : ℚ), (h : ℚ)).2)
          (iterCount ((w : ℚ), (h : ℚ)).1)) []).2 = false := by
    intro dx dy
    refine copyPixels_fails _ _ _ _ _ _ _ ⟨(h - 1, w - 1), ?_, ?_⟩
    · simp only [natFloor_natCast, iterCount_natCast]
      exact pixelList_mem_last h w hh hw
    · simp only [natFloor_natCast]
      have hwh : 1 ≤ w * h := Nat.mul_pos hw hh
      have e : w * 4 * (h - 1) + w * 4 = 4 * (w * h) := by
        cases h with
        | zero => omega
        | succ h0 =>
            simp only [Nat.add_sub_cancel]
            ring
      omega
  have hwrite : ∀ dx dy,
      0 < (copyPixels (natFloor ((w : ℚ), (h : ℚ)).1) texSize texData dx dy
        (pixelList (iterCount ((w : ℚ), (h : ℚ)).2)
          (iterCount ((w : ℚ), (h : ℚ)).1)) []).1.length := by
    intro dx dy
    obtain ⟨l, hl⟩ := pixelList_cons h w hh hw
    simp only [natFloor_natCast, iterCount_natCast, hl]
    simpa using copyPixels_writes_first w texSize texData dx dy l []
  unfold texAppend
  rw [if_neg hz, if_neg hfit]
  simp only [hfail, if_neg (Bool.false_ne_true)]
  refine ⟨trivial, ?_, ?_⟩
  · rw [texRowStep_coords, texWrapStep_coords]
  · simp only [List.length_append]
    rw [texRowStep_texture, texWrapStep_texture]
    exact Nat.lt_add_of_pos_right (hwrite _ _)

/-- Witness for the amended claim: a 1×2 append with 3 declared bytes on
a fresh 4×4 atlas fails, keeps the map, and has written a pixel. -/
theorem c3_short_data_incomplete_copy_witness :
    (texAppend (texCreate (4, 4)) 7 (1, 2) sampleBytes 3).2 = false ∧
    (texAppend (texCreate (4, 4)) 7 (1, 2) sampleBytes 3).1.coords
      = (texCreate (4, 4)).coords ∧
    (texCreate (4, 4)).texture.length
      < (texAppend (texCreate (4, 4)) 7 (1, 2) sampleBytes 3).1.texture.length := by
  have hw := c3_short_data_incomplete_copy (texCreate (4, 4)) 7 1 2 3 sampleBytes
    (by norm_num) (by norm_num) (by norm_num) (by norm_num)
    (by norm_num [texWrapStep, texCreate])
  simpa using hw

/-! ### `coords` lookups (claim C7) -/

/-- An `append` leaves stored UVRects of every other key untouched, on
success and on every failure path. -/
theorem texAppend_coords_other (a : TexAtlas) (uuid : ℕ) (dims : ℚ × ℚ)
    (texData : ℕ → ℕ) (texSize : ℕ) (j : ℕ) (hj : ¬ j = uuid) :
    alookup (texAppend a uuid dims texData texSize).1.coords j
      = alookup a.coords j := by
  simp only [texAppend]
  split
  · rfl
  · split
    · rw [texWrapStep_coords]
    · split
      · simp only [alookup, if_neg hj]
        rw [texRowStep_coords, texWrapStep_coords]
      · rw [texRowStep_coords, texWrapStep_coords]

/-- A successful `append` stores the shelf-cursor UVRect under its
key. -/
theorem texAppend_stores (a : TexAtlas) (uuid : ℕ) (dims : ℚ × ℚ)
    (texData : ℕ → ℕ) (texSize : ℕ)
    (h : (texAppend a uuid dims texData texSize).2 = true) :
    alookup (texAppend a uuid dims texData texSize).1.coords uuid
      = some (texAppendUV (texRowStep (texWrapStep a dims) dims) dims) := by
  simp only [texAppend] at h ⊢
  split at h
  · exact absurd h (by simp)
  · next hz =>
      split at h
      · exact absurd h (by simp)
      · next hv =>
          split at h
          · next hres =>
              rw [if_neg hz, if_neg hv, if_pos hres]
              simp [alookup]
          · exact absurd h (by simp)

/-- C7: both `coords` lookups are total — they return the stored UVRect
of a key that a successful `append` (or glyph paint) recorded, the
all-zero sentinel for a key that was never stored, and an `append` never
disturbs other keys' stored rectangles. -/
theorem c7_coords_lookup (a : TexAtlas) (f : FontW) (k c uuid : ℕ)
    (dims : ℚ × ℚ) (texData : ℕ → ℕ) (texSize : ℕ) :
    (∀ v, alookup a.coords k = some v → texCoords a k = v) ∧
    (alookup a.coords k = none → texCoords a k = zeroUV) ∧
    ((texAppend a uuid dims texData texSize).2 = true →
      texCoords (texAppend a uuid dims texData texSize).1 uuid
        = texAppendUV (texRowStep (texWrapStep a dims) dims) dims) ∧
    (∀ j, ¬ j = uuid →
      texCoords (texAppend a uuid dims texData texSize).1 j = texCoords a j) ∧
    (∀ v, alookup f.coords c = some v → fontCoords f c = v) ∧
    (alookup f.coords c = none → fontCoords f c = zeroUV) := by
  refine ⟨?_, ?_, ?_, ?_, ?_, ?_⟩
  · intro v hv
    unfold texCoords
    rw [hv]
    rfl
  · intro hv
    unfold texCoords
    rw [hv]
    rfl
  · intro h
    unfold texCoords
    rw [texAppend_stores a uuid dims texData texSize h]
    rfl
  · intro j hj
    unfold texCoords
    rw [texAppend_coords_other a uuid dims texData texSize j hj]
  · intro v hv
    unfold fontCoords
    rw [hv]
    rfl
  · intro hv
    unfold fontCoords
    rw [hv]
    rfl

/-- Witness: a present key yields its stored rectangle, absent keys and
unpainted glyphs yield the zero sentinel. -/
theorem c7_coords_lookup_witness :
    texCoords atlasSample 5 = uvSample ∧
    texCoords atlasSample 9 = zeroUV ∧
    fontCoords fontEmpty 65 = zeroUV := by
  have h := c7_coords_lookup atlasSample fontEmpty 5 65 1 (1, 1) sampleBytes 4
  have h9 := c7_coords_lookup atlasSample fontEmpty 9 65 1 (1, 1) sampleBytes 4
  exact ⟨h.1 uvSample rfl, h9.2.1 rfl, h.2.2.2.2.2 rfl⟩

/-! ### `text_extent` mutates the glyph map (claim C9) -/

/-- After an `operator[]` access the key is present with the value the
access returned. -/
theorem alookup_mapGet_self (m : List (ℕ × UVr)) (c : ℕ) :
    alookup (mapGet m c).2 c = some (mapGet m c).1 := by
  unfold mapGet
  cases h : alookup m c with
  | some v => simp [h]
  | none => simp [alookup, h]

/-- The value an `operator[]` access returns: the stored one, or the
value-initialised all-zero rectangle. -/
theorem mapGet_val (m : List (ℕ × UVr)) (c : ℕ) :
    (mapGet m c).1 = (alookup m c).getD zeroUV := by
  unfold mapGet
  cases h : alookup m c <;> simp [h]

/-- An `operator[]` access never disturbs other keys. -/
theorem alookup_mapGet_other (m : List (ℕ × UVr)) (c k : ℕ) (h : ¬ k = c) :
    alookup (mapGet m c).2 k = alookup m k := by
  unfold mapGet
  cases hc : alookup m c with
  | some v => simp [hc]
  | none => simp [alookup, hc, h]

/-- An `operator[]` access preserves existing entries and values. -/
theorem alookup_mapGet_preserve (m : List (ℕ × UVr)) (c k : ℕ) (v : UVr)
    (h : alookup m k = some v) : alookup (mapGet m c).2 k = some v := by
  by_cases hk : k = c
  · subst hk
    rw [alookup_mapGet_self, mapGet_val, h]
    rfl
  · rw [alookup_mapGet_other m c k hk]
    exact h

/-- The measuring loop only ever adds entries: existing ones survive
with their values. -/
theorem textExtentGo_preserve (f : FontW) (rh : ℚ) (text : List ℕ) :
    ∀ (rowW w h : ℚ) (m : List (ℕ × UVr)) (k : ℕ) (v : UVr),
      alookup m k = some v →
      alookup (textExtentGo f rh text rowW w h m).2 k = some v := by
  induction text with
  | nil => intro rowW w h m k v hv; simpa [textExtentGo] using hv
  | cons c rest ih =>
      intro rowW w h m k v hv
      by_cases hc : c = 10
      · simp only [textExtentGo, if_pos hc]
        exact ih _ _ _ _ _ _ hv
      · by_cases hlt : c < 32
        · simp only [textExtentGo, if_neg hc, if_pos hlt]
          exact ih _ _ _ _ _ _ hv
        · simp only [textExtentGo, if_neg hc, if_neg hlt]
          exact ih _ _ _ _ _ _ (alookup_mapGet_preserve m c k v hv)

/-- Every measured printable character ends up in the map, with the
all-zero value if it was absent (or already zero) before. -/
theorem textExtentGo_inserts_zero (f : FontW) (rh : ℚ) (text : List ℕ) :
    ∀ (rowW w h : ℚ) (m : List (ℕ × UVr)) (c : ℕ), c ∈ text → ¬ c < 32 →
      (alookup m c = none ∨ alookup m c = some zeroUV) →
      alookup (textExtentGo f rh text rowW w h m).2 c = some zeroUV := by
  induction text with
  | nil => intro rowW w h m c hmem; simp at hmem
  | cons c' rest ih =>
      intro rowW w h m c hmem hge hinv
      by_cases hc : c' = 10
      · simp only [textExtentGo, if_pos hc]
        have hcne : ¬ c = c' := fun he => hge (by omega)
        rcases List.mem_cons.mp hmem with he | hmem'
        · exact absurd (he.trans hc) (by omega)
        · exact ih _ _ _ _ c hmem' hge hinv
      · by_cases hlt : c' < 32
        · simp only [textExtentGo, if_neg hc, if_pos hlt]
          rcases List.mem_cons.mp hmem with he | hmem'
          · exact absurd (he ▸ hge) (fun hn => hn hlt)
          · exact ih _ _ _ _ c hmem' hge hinv
        · simp only [textExtentGo, if_neg hc, if_neg hlt]
          by_cases hkc : c = c'
          · subst hkc
            have hself : alookup (mapGet m c).2 c = some zeroUV := by
              rw [alookup_mapGet_self, mapGet_val]
              rcases hinv with hn | hz
              · rw [hn]; rfl
              · rw [hz]; rfl
            rcases List.mem_cons.mp hmem with _ | hmem'
            · exact textExtentGo_preserve f rh rest _ _ _ _ _ _ hself
            · exact ih _ _ _ _ c hmem' hge (Or.inr hself)
          · have hother : alookup (mapGet m c').2 c = alookup m c :=
              alookup_mapGet_other m c' c hkc
            rcases List.mem_cons.mp hmem with he | hmem'
            · exact absurd he hkc
            · exact ih _ _ _ _ c hmem' hge (hother ▸ hinv)

/-- C9: `text_extent` is not side-effect free — its `operator[]`
accesses insert entries: the space character used for the row height is
always present afterwards (all-zero if it was missing, so a miss grows
the map), and so is every measured character `≥ 32` of the text. -/
theorem c9_text_extent_mutates (f : FontW) (text : List ℕ) (c : ℕ) :
    (alookup (textExtent f text).2 32).isSome = true ∧
    (c ∈ text → ¬ c < 32 → (alookup (textExtent f text).2 c).isSome = true) ∧
    (alookup f.coords 32 = none →
      alookup (textExtent f text).2 32 = some zeroUV ∧
      ¬ (textExtent f text).2 = f.coords) ∧
    (c ∈ text → ¬ c < 32 → alookup f.coords c = none →
      alookup (textExtent f text).2 c = some zeroUV) := by
  have hbase : alookup (mapGet f.coords 32).2 32 = some (mapGet f.coords 32).1 :=
    alookup_mapGet_self f.coords 32
  refine ⟨?_, ?_, ?_, ?_⟩
  · unfold textExtent
    rw [textExtentGo_preserve f _ text _ _ _ _ 32 _ hbase]
    rfl
  · intro hmem hge
    unfold textExtent
    by_cases h32 : alookup f.coords c = none ∨ alookup f.coords c = some zeroUV
    · have hinv : alookup (mapGet f.coords 32).2 c = none ∨
          alookup (mapGet f.coords 32).2 c = some zeroUV := by
        by_cases hc32 : c = 32
        · subst hc32
          rcases h32 with hn | hz
          · right
            rw [hbase, mapGet_val, hn]
            rfl
          · right
            rw [hbase, mapGet_val, hz]
            rfl
        · rw [alookup_mapGet_other f.coords 32 c hc32]
          exact h32
      rw [textExtentGo_inserts_zero f _ text _ _ _ _ c hmem hge hinv]
      rfl
    · push_neg at h32
      obtain ⟨hns, _⟩ := h32
      cases hv : alookup f.coords c with
      | none => exact absurd hv hns
      | some v =>
          rw [textExtentGo_preserve f _ text _ _ _ _ c v
            (alookup_mapGet_preserve f.coords 32 c v hv)]
          rfl
  · intro hnone
    have hz : alookup (mapGet f.coords 32).2 32 = some zeroUV := by
      rw [hbase, mapGet_val, hnone]
      rfl
    have hres : alookup (textExtent f text).2 32 = some zeroUV := by
      unfold textExtent
      exact textExtentGo_preserve f _ text _ _ _ _ 32 _ hz
    refine ⟨hres, fun he => ?_⟩
    rw [he, hnone] at hres
    cases hres
  · intro hmem hge hnone
    unfold textExtent
    have hinv : alookup (mapGet f.coords 32).2 c = none ∨
        alookup (mapGet f.coords 32).2 c = some zeroUV := by
      by_cases hc32 : c = 32
      · subst hc32
        right
        rw [hbase, mapGet_val, hnone]
        rfl
      · rw [alookup_mapGet_other f.coords 32 c hc32]
        exact Or.inl hnone
    exact textExtentGo_inserts_zero f _ text _ _ _ _ c hmem hge hinv

/-- Witness: measuring the single letter `A` (65) on a font with an
empty map inserts all-zero entries for the space and for the letter. -/
theorem c9_text_extent_mutates_witness :
    (alookup (textExtent fontEmpty [65]).2 32).isSome = true ∧
    alookup (textExtent fontEmpty [65]).2 65 = some zeroUV ∧
    ¬ (textExtent fontEmpty [65]).2 = fontEmpty.coords := by
  have h := c9_text_extent_mutates fontEmpty [65] 65
  exact ⟨h.1, h.2.2.2 (by simp) (by norm_num) rfl, (h.2.2.1 rfl).2⟩

/-! ### `text_extent` versus `push_text` advances (claim C5) -/

/-- An `operator[]` access never changes the defaulted-to-zero view of
the map: inserted entries are exactly the default value. -/
theorem mapGet_view (m : List (ℕ × UVr)) (c k : ℕ) :
    (alookup (mapGet m c).2 k).getD zeroUV = (alookup m k).getD zeroUV := by
  by_cases hk : k = c
  · subst hk
    rw [alookup_mapGet_self, mapGet_val]
    cases h : alookup m k <;> simp [h]
  · rw [alookup_mapGet_other m c k hk]

/-- At scale 1 the two advance formulas coincide. -/
theorem pushTextAdvance_eq_extentAdvance (f : FontW) (c : ℕ)
    (hs : f.scale = 1) : pushTextAdvance f c = extentAdvance f c := by
  unfold pushTextAdvance extentAdvance
  rw [hs, div_one]

/-- A sum of advances over non-negative per-glyph advances is
non-negative. -/
theorem extentSum_nonneg (f : FontW) (text : List ℕ)
    (hpos : ∀ c ∈ text, ¬ c < 32 → 0 ≤ extentAdvance f c) :
    0 ≤ extentSum f text := by
  induction text with
  | nil => simp [extentSum]
  | cons c rest ih =>
      have h1 : (0 : ℚ) ≤ if c < 32 then 0 else extentAdvance f c := by
        split
        · exact le_refl 0
        · next hge => exact hpos c (List.mem_cons_self c rest) hge
      have h2 := ih fun d hd => hpos d (List.mem_cons_of_mem _ hd)
      simpa [extentSum] using add_nonneg h1 h2

/-- For newline-free text whose per-glyph advances are all
non-negative, the measuring loop's running-maximum width equals the
straight sum of advances over the text. -/
theorem textExtentGo_width (f : FontW) (rh : ℚ) (text : List ℕ) :
    ∀ (rowW w h : ℚ) (m : List (ℕ × UVr)),
      ¬ 10 ∈ text →
      (∀ k, (alookup m k).getD zeroUV = (alookup f.coords k).getD zeroUV) →
      (∀ c ∈ text, ¬ c < 32 → 0 ≤ extentAdvance f c) →
      rowW ≤ w →
      (textExtentGo f rh text rowW w h m).1.1 = max w (rowW + extentSum f text) := by
  induction text with
  | nil =>
      intro rowW w h m _ _ _ hrw
      simp only [textExtentGo, extentSum, add_zero]
      exact (max_eq_left hrw).symm
  | cons c rest ih =>
      intro rowW w h m h10 hview hpos hrw
      have hc10 : ¬ c = 10 := fun he => h10 (he ▸ List.mem_cons_self c rest)
      have h10' : ¬ 10 ∈ rest := fun hm => h10 (List.mem_cons_of_mem _ hm)
      have hpos' : ∀ d ∈ rest, ¬ d < 32 → 0 ≤ extentAdvance f d :=
        fun d hd => hpos d (List.mem_cons_of_mem _ hd)
      by_cases hlt : c < 32
      · simp only [textExtentGo, if_neg hc10, if_pos hlt]
        rw [ih rowW w h m h10' hview hpos' hrw]
        simp [extentSum, hlt]
      · simp only [textExtentGo, if_neg hc10, if_neg hlt]
        have hval : (mapGet m c).1 = fontCoords f c := by
          rw [mapGet_val]
          exact hview c
        have hadv : (mapGet m c).1.u1 - (mapGet m c).1.u0 = (fontCoords f c).u1
            - (fontCoords f c).u0 := by rw [hval]
        have hview' : ∀ k, (alookup (mapGet m c).2 k).getD zeroUV
            = (alookup f.coords k).getD zeroUV :=
          fun k => (mapGet_view m c k).trans (hview k)
        have hS : 0 ≤ extentSum f rest := extentSum_nonneg f rest hpos'
        have hrw' : (rowW + ((mapGet m c).1.u1 - (mapGet m c).1.u0)
              * (f.width : ℚ) - 2 * (f.spacing : ℚ))
            ≤ (if w < rowW + ((mapGet m c).1.u1 - (mapGet m c).1.u0)
              * (f.width : ℚ) - 2 * (f.spacing : ℚ)
              then rowW + ((mapGet m c).1.u1 - (mapGet m c).1.u0)
                * (f.width : ℚ) - 2 * (f.spacing : ℚ) else w) := by
          split
          · exact le_refl _
          · next hn => exact le_of_not_lt hn
        rw [ih _ _ h _ h10' hview' hpos' hrw']
        have hmax : (if w < rowW + ((mapGet m c).1.u1 - (mapGet m c).1.u0)
              * (f.width : ℚ) - 2 * (f.spacing : ℚ)
              then rowW + ((mapGet m c).1.u1 - (mapGet m c).1.u0)
                * (f.width : ℚ) - 2 * (f.spacing : ℚ) else w)
            = max w (rowW + ((mapGet m c).1.u1 - (mapGet m c).1.u0)
                * (f.width : ℚ) - 2 * (f.spacing : ℚ)) := by
          split
          · next hyes => exact (max_eq_right (le_of_lt hyes)).symm
          · next hn => exact (max_eq_left (le_of_not_lt hn)).symm
        rw [hmax, max_assoc]
        have hstep : max (rowW + ((mapGet m c).1.u1 - (mapGet m c).1.u0)
              * (f.width : ℚ) - 2 * (f.spacing : ℚ))
              (rowW + ((mapGet m c).1.u1 - (mapGet m c).1.u0)
                * (f.width : ℚ) - 2 * (f.spacing : ℚ) + extentSum f rest)
            = rowW + extentSum f (c :: rest) := by
          rw [max_eq_right (by linarith)]
          simp only [extentSum, if_neg hlt, extentAdvance, hadv]
          ring
        rw [hstep]

/-- Newline-free text never triggers the reset branch: the final
`corrected_position.x` is the start value plus the sum of advances,
which at scale 1 is the `text_extent` advance sum. -/
theorem pushTextX_no_newline (f : FontW) (hs : f.scale = 1) (sx : ℚ)
    (text : List ℕ) (h10 : ¬ 10 ∈ text) :
    ∀ x, pushTextX f sx text x = x + extentSum f text := by
  induction text with
  | nil => intro x; simp [pushTextX, extentSum]
  | cons c rest ih =>
      intro x
      have hc10 : ¬ c = 10 := fun he => h10 (he ▸ List.mem_cons_self c rest)
      have h10' : ¬ 10 ∈ rest := fun hm => h10 (List.mem_cons_of_mem _ hm)
      by_cases hlt : c < 32
      · simp only [pushTextX, if_neg hc10, if_pos hlt]
        rw [ih h10' x]
        simp [extentSum, hlt]
      · simp only [pushTextX, if_neg hc10, if_neg hlt]
        rw [ih h10' _, pushTextAdvance_eq_extentAdvance f c hs]
        simp only [extentSum, if_neg hlt]
        ring

/-- C5 is false as stated: on a font with `scale = 1/2`, `text_extent`
of the single glyph 66 gives width 64 while `push_text`'s position
accumulation advances by 128 — `text_extent` omits the division by the
scale that `push_text` applies. -/
theorem c5_counterexample :
    ¬ (textExtent fontScaled [66]).1.1
        = pushTextX fontScaled 0 [66] 0 - 0 := by
  norm_num [textExtent, textExtentGo, mapGet, alookup, fontScaled, pushTextX,
    pushTextAdvance, fontCoords, zeroUV]

/-- C5 amended: when the font's scale is 1 (the two advance formulas
then agree), for newline-free text with non-negative per-glyph advances
the width reported by `text_extent` equals exactly the displacement that
`push_text`'s own position accumulation produces over the text. -/
theorem c5_text_extent_matches_push_text (f : FontW) (text : List ℕ)
    (x sx : ℚ) (hs : f.scale = 1) (h10 : ¬ 10 ∈ text)
    (hpos : ∀ c ∈ text, ¬ c < 32 → 0 ≤ pushTextAdvance f c) :
    (textExtent f text).1.1 = pushTextX f sx text x - x := by
  have hpos' : ∀ c ∈ text, ¬ c < 32 → 0 ≤ extentAdvance f c := fun c hc hg =>
    pushTextAdvance_eq_extentAdvance f c hs ▸ hpos c hc hg
  have hview : ∀ k, (alookup (mapGet f.coords 32).2 k).getD zeroUV
      = (alookup f.coords k).getD zeroUV := fun k => mapGet_view f.coords 32 k
  unfold textExtent
  rw [textExtentGo_width f _ text 0 0 _ _ h10 hview hpos' le_rfl]
  rw [pushTextX_no_newline f hs sx text h10 x, zero_add]
  rw [max_eq_right (extentSum_nonneg f text hpos')]
  ring

/-- Witness: at scale 1, measuring the single glyph 66 yields exactly
the displacement `push_text` would accumulate for it, regardless of the
starting position. -/
theorem c5_text_extent_matches_push_text_witness :
    (textExtent fontUnit [66]).1.1 = pushTextX fontUnit 3 [66] 5 - 5 :=
  c5_text_extent_matches_push_text fontUnit [66] 5 3 rfl (by norm_num)
    (by
      intro c hc hg
      have hc66 : c = 66 := by simpa using hc
      subst hc66
      norm_num [pushTextAdvance, fontCoords, alookup, fontUnit])

/-! ### Glyph-atlas fitting loops (claim C8) -/

/-- If the atlas is wide enough to hold every glyph on the first shelf
and tall enough for each glyph from the current row, the measuring pass
succeeds. -/
theorem measureGlyphs_fits (spacing width height : ℕ)
    (glyphs : List (ℕ × ℕ)) :
    ∀ (x y : ℕ),
      x + (glyphs.map fun g => g.1 + 2 * spacing).sum ≤ width →
      (∀ g ∈ glyphs, y + g.2 ≤ height) →
      measureGlyphs spacing width height glyphs x y = true := by
  induction glyphs with
  | nil => intro x y _ _; rfl
  | cons g rest ih =>
      intro x y hx hy
      obtain ⟨cx, cy⟩ := g
      simp only [List.map_cons, List.sum_cons] at hx
      have hnw : ¬ width < x + cx + spacing := by omega
      have hok : ¬ height < y + cy := by
        have := hy (cx, cy) (List.mem_cons_self _ _)
        omega
      simp only [measureGlyphs, if_neg hnw, if_neg hok]
      exact ih (x + cx + 2 * spacing) y (by omega)
        fun g hg => hy g (List.mem_cons_of_mem _ hg)

/-- C8 amended: the atlas-size-doubling dry-run loop terminates for any
fixed glyph measurements — some power-of-two multiple of the initial
side 128 fits them all — and the shrink loop's scale sequence is
strictly decreasing; but no explicit iteration or minimum-scale cutoff
exists in the code, so the shrink loop only stops if some scale actually
fits (see the counterexample for a fixed-measurement font where it never
does). -/
theorem c8_fitting_loops (glyphs : List (ℕ × ℕ)) (spacing : ℕ) (s0 : ℚ)
    (n : ℕ) (hs : 0 < s0) :
    (∃ k, measureFits glyphs spacing (128 * 2 ^ k) = true) ∧
    shrinkScale s0 (n + 1) < shrinkScale s0 n := by
  constructor
  · set b := spacing + (glyphs.map fun g => g.1 + 2 * spacing).sum
      + (glyphs.map fun g => g.2).sum with hb
    refine ⟨b, ?_⟩
    have hside : b ≤ 128 * 2 ^ b := by
      have h1 : b < 2 ^ b := Nat.lt_two_pow b
      have h2 : 2 ^ b ≤ 128 * 2 ^ b := Nat.le_mul_of_pos_left _ (by norm_num)
      omega
    unfold measureFits
    refine measureGlyphs_fits spacing _ _ glyphs spacing 0 (by omega) ?_
    intro g hg
    have hmem : g.2 ∈ glyphs.map fun g => g.2 := List.mem_map_of_mem _ hg
    have hle : g.2 ≤ (glyphs.map fun g => g.2).sum :=
      List.single_le_sum (fun i _ => Nat.zero_le i) _ hmem
    omega
  · unfold shrinkScale
    have hp : (0 : ℚ) < (9 / 10) ^ n := pow_pos (by norm_num) n
    calc s0 * (9 / 10) ^ (n + 1) = s0 * (9 / 10) ^ n * (9 / 10) := by ring
    _ < s0 * (9 / 10) ^ n * 1 := by
        have hpos : 0 < s0 * (9 / 10) ^ n := mul_pos hs hp
        exact mul_lt_mul_of_pos_left (by norm_num) hpos
    _ = s0 * (9 / 10) ^ n := mul_one _

/-- Witness: the scale shrinks strictly on the first retry from an
initial scale of 1. -/
theorem c8_fitting_loops_witness :
    shrinkScale 1 1 < shrinkScale 1 0 :=
  (c8_fitting_loops [(1, 2)] 0 1 0 (by norm_num)).2

/-- C8 is false in its cutoff part: for a font whose reported glyph
measurements are fixed at 1×200 — taller than the ceiling-clamped
128-pixel atlas — the `scale *= 0.9` retry loop never finds a fitting
iteration: no explicit iteration or minimum-scale cutoff stops it and
no failure is surfaced, so `create` does not terminate. -/
theorem c8_counterexample :
    ¬ shrinkLoopTerminates fixedTallGlyph 0 128 := by
  intro h
  obtain ⟨n, hn⟩ := h
  have hn' : measureFits [(1, 200)] 0 128 = true := hn
  have hfalse : measureFits [(1, 200)] 0 128 = false := by decide
  rw [hfalse] at hn'
  cases hn'

end Daisy
